import Mathlib

/-!
Verification development for `stable_diffusion_dissection`, a notebook that
walks through the BERT inference pipeline (tokenizer → embedder → encoder →
pooler) used to encode a caption for latent-diffusion image generation.
The pipeline components live in an external pretrained library; they are
modelled here from the specification's contracts and from the concrete
tensors and token sequences recorded in the notebook's stored outputs.
-/

namespace BertDissection

/-- Modelled from the spec: the reserved sequence-start marker id (`[CLS]`),
recorded in the notebook's output as id 101. -/
def clsId : ℕ := 101

/-- Modelled from the spec: the reserved sequence-end marker id (`[SEP]`),
recorded in the notebook's output as id 102. -/
def sepId : ℕ := 102

/-- Modelled from the spec: the unknown-token id (`[UNK]`). -/
def unkId : ℕ := 100

/-- Lower-casing of a single character (the tokenizer uses the lower-cased
variant of the input, per the spec's `bert-base-uncased` contract). -/
def lowerChar (c : Char) : Char :=
  if 65 ≤ c.toNat ∧ c.toNat ≤ 90 then Char.ofNat (c.toNat + 32) else c

/-- Punctuation characters split off as their own tokens. -/
def isPunct (c : Char) : Bool :=
  c == ',' || c == '.' || c == '!' || c == '?' || c == ';' || c == ':'

/-- Splits a character stream into words and single-character punctuation
tokens; the accumulator holds the current word reversed. -/
def splitWords : List Char → List Char → List (List Char)
  | [], acc => if acc = [] then [] else [acc.reverse]
  | c :: rest, acc =>
    if c = ' ' then
      if acc = [] then splitWords rest [] else acc.reverse :: splitWords rest []
    else if isPunct c then
      if acc = [] then [c] :: splitWords rest []
      else acc.reverse :: [c] :: splitWords rest []
    else splitWords rest (c :: acc)

/-- `startsList p l` holds when `p` is an initial segment of `l`. -/
def startsList : List Char → List Char → Bool
  | [], _ => true
  | _ :: _, [] => false
  | a :: as, b :: bs => a == b && startsList as bs

/-- Modelled from the spec: the fragment ↔ id vocabulary of the external
pretrained wordpiece tokenizer (a fixed bijective mapping, ~30522 entries),
restricted to the fragments exercised by the notebook's recorded example:
ids and sub-word fragments are exactly those printed in the notebook's
stored output for the example sentence. -/
def vocab : List (String × ℕ) :=
  [("[cls]", 101), ("[sep]", 102), ("[unk]", 100),
   ("hello", 7592), (",", 1010), ("my", 2026), ("dog", 3899), ("is", 2003),
   ("cute", 10140), (".", 1012), ("he", 2002), ("likes", 7777),
   ("snow", 4586), ("##boarding", 21172), ("!", 999)]

/-- Greedy longest-match lookup of a wordpiece at the start of `w`;
`cont` selects continuation fragments (those written with a leading `##`).
Returns the matched fragment length (without the `##`) and its id. -/
def bestPiece (cont : Bool) (w : List Char) : Option (ℕ × ℕ) :=
  vocab.foldl (fun best kv =>
    let kc := kv.1.data
    if (startsList ['#', '#'] kc) ≠ cont then best
    else
      let core := if cont then kc.drop 2 else kc
      if startsList core w && 0 < core.length then
        match best with
        | none => some (core.length, kv.2)
        | some b => if b.1 < core.length then some (core.length, kv.2) else best
      else best) none

/-- Greedy wordpiece segmentation of one word into ids, fuelled by the
word's length; an unmatchable word (or remainder) becomes `[UNK]`. -/
def wordpieceAux : ℕ → Bool → List Char → List ℕ
  | _, _, [] => []
  | 0, _, _ => [unkId]
  | fuel + 1, cont, w =>
    match bestPiece cont w with
    | none => [unkId]
    | some p => p.2 :: wordpieceAux fuel true (w.drop (max p.1 1))

/-- Wordpiece ids of a single word. -/
def wordpiece (w : List Char) : List ℕ := wordpieceAux w.length false w

/-- Modelled from the spec: the tokenizer of the external pretrained model.
Deterministic map from a string to sub-word integer ids: lower-case, split
into words and punctuation, segment each word by greedy wordpiece, and wrap
the result in the sequence-start and sequence-end markers. -/
def tokenize (s : String) : List ℕ :=
  clsId :: ((splitWords (s.data.map lowerChar) []).map wordpiece).flatten ++ [sepId]

/-- Modelled from the spec: the text fragment an id decodes to. Marker ids
decode to their upper-case display forms, as in the notebook's recorded
decode output; other ids decode through the vocabulary. -/
def idToFrag (i : ℕ) : String :=
  if i = clsId then "[CLS]"
  else if i = sepId then "[SEP]"
  else if i = unkId then "[UNK]"
  else
    match vocab.find? (fun kv => kv.2 == i) with
    | some kv => kv.1
    | none => "[UNK]"

/-- Joins a decoded fragment onto the accumulated text: `##` continuations
and punctuation attach without a space, everything else with one. -/
def fragGlue (acc : String) (g : String) : String :=
  if startsList ['#', '#'] g.data then acc ++ String.mk (g.data.drop 2)
  else
    match g.data with
    | [c] => if isPunct c then acc ++ g else acc ++ " " ++ g
    | _ => acc ++ " " ++ g

/-- Modelled from the spec: the detokenization operation (`tokenizer.decode`):
maps each id back to its fragment and joins them with normalized spacing, as
in the notebook's recorded output. -/
def decode (ids : List ℕ) : String :=
  match ids.map idToFrag with
  | [] => ""
  | f :: fs => fs.foldl fragGlue f

/-- The example input string hard-coded in the notebook. -/
def exStr : String := "Hello, my dog is cute. He likes snowboarding!"

/-- The token id sequence the notebook's stored output records for `exStr`. -/
def exIds : List ℕ :=
  [101, 7592, 1010, 2026, 3899, 2003, 10140, 1012, 2002, 7777, 4586, 21172, 999, 102]

/-! ### Numeric model: vectors, embedder, encoder, pooler -/

/-- The hidden dimension of the pretrained model. -/
def hiddenSize : ℕ := 768

/-- The maximum sequence length the pretrained model supports. -/
def maxLen : ℕ := 512

/-- Elementwise sum of two real vectors. -/
def vadd (v w : List ℝ) : List ℝ := List.zipWith (fun a b => a + b) v w

/-- Scalar multiple of a real vector. -/
def smulVec (c : ℝ) (v : List ℝ) : List ℝ := v.map (fun a => c * a)

/-- Dot product of two real vectors. -/
def dot (v w : List ℝ) : ℝ := (List.zipWith (fun a b => a * b) v w).sum

/-- Modelled from the spec: the learned parameters and learned auxiliary maps
of the external pretrained model, kept abstract — the pipeline is specified
for the fixed pretrained weights, whose numeric values are not part of this
repository. `normalize` is the embedder's normalization step, `attnW` the
encoder's learned attention weighting, `poolW`/`poolB` the pooler's affine
map. -/
structure Weights where
  wordEmb : ℕ → List ℝ
  posEmb : ℕ → List ℝ
  normalize : List ℝ → List ℝ
  attnW : ℕ → ℕ → ℝ
  poolW : List (List ℝ)
  poolB : List ℝ

/-- Modelled from the spec: the embedding vector of token id `tid` sitting at
sequence position `pos` — the elementwise sum of the vocabulary-indexed
lookup vector and the position-indexed lookup vector, then normalized. -/
def embedVec (M : Weights) (tid pos : ℕ) : List ℝ :=
  M.normalize (vadd (M.wordEmb tid) (M.posEmb pos))

/-- Modelled from the spec: the embedder — one embedding vector per id,
positions counted from 0. -/
def embeddings (M : Weights) (ids : List ℕ) : List (List ℝ) :=
  (List.range ids.length).map (fun i => embedVec M (ids.getD i 0) i)

/-- Sum of a list of vectors of dimension `d`. -/
def vsum (d : ℕ) (vs : List (List ℝ)) : List ℝ :=
  vs.foldl vadd (List.replicate d 0)

/-- Modelled from the spec: the context vector the encoder produces at
position `i` — influenced by every input vector through the learned
attention weighting. -/
def contextVec (M : Weights) (xs : List (List ℝ)) (i : ℕ) : List ℝ :=
  vsum xs.headI.length
    ((List.range xs.length).map (fun j => smulVec (M.attnW i j) (xs.getD j [])))

/-- Modelled from the spec: the encoder (transformer stack), an opaque
deterministic shape-preserving transform — one context vector per input
position. -/
def encoder (M : Weights) (xs : List (List ℝ)) : List (List ℝ) :=
  (List.range xs.length).map (fun i => contextVec M xs i)

/-- Modelled from the spec: the pooler — takes only the context vector at
position 0 and applies one learned affine map followed by the bounded
non-linearity `tanh`, producing a batch of one pooled vector. -/
noncomputable def pooler (M : Weights) (hs : List (List ℝ)) : List (List ℝ) :=
  [List.zipWith (fun w b => Real.tanh (b + dot w hs.headI)) M.poolW M.poolB]

/-- The embedder's batched output for an input string, as in the notebook:
a batch of one sequence of embedding vectors. -/
def embedOut (M : Weights) (s : String) : List (List (List ℝ)) :=
  [embeddings M (tokenize s)]

/-- The pooled output of the whole pipeline for an input string. -/
noncomputable def pooledOut (M : Weights) (s : String) : List (List ℝ) :=
  pooler M (encoder M (embeddings M (tokenize s)))

/-- Concrete well-formed weights used to instantiate the model: all lookup
vectors are zero vectors of dimension 768, normalization is the identity,
attention weights and the pooler affine map are zero. -/
def zeroWeights : Weights where
  wordEmb _ := List.replicate hiddenSize 0
  posEmb _ := List.replicate hiddenSize 0
  normalize := id
  attnW _ _ := 0
  poolW := List.replicate hiddenSize (List.replicate hiddenSize 0)
  poolB := List.replicate hiddenSize 0

/-- A minimal concrete weights instance whose pooler affine map has a single
output coordinate, used to witness the pooler bound on a concrete input. -/
def tinyWeights : Weights where
  wordEmb _ := []
  posEmb _ := []
  normalize := id
  attnW _ _ := 0
  poolW := [[]]
  poolB := [0]

/-! ### Helper lemmas -/

theorem tanh_le_one (x : ℝ) : Real.tanh x ≤ 1 := by
  rw [Real.tanh_eq_sinh_div_cosh, div_le_one (Real.cosh_pos x)]
  nlinarith [Real.cosh_sub_sinh x, Real.exp_pos (-x)]

theorem neg_one_le_tanh (x : ℝ) : -1 ≤ Real.tanh x := by
  rw [Real.tanh_eq_sinh_div_cosh, le_div_iff₀ (Real.cosh_pos x)]
  nlinarith [Real.cosh_add_sinh x, Real.exp_pos x]

theorem mem_zipWith_exists {α β γ : Type _} (f : α → β → γ) :
    ∀ (a : List α) (b : List β), ∀ x ∈ List.zipWith f a b, ∃ u v, x = f u v
  | [], _, x, hx => by simp at hx
  | _ :: _, [], x, hx => by simp at hx
  | u :: us, v :: vs, x, hx => by
    rcases List.mem_cons.mp hx with h | h
    · exact ⟨u, v, h⟩
    · exact mem_zipWith_exists f us vs x h

theorem vadd_length (v w : List ℝ) : (vadd v w).length = min v.length w.length :=
  List.length_zipWith _ v w

theorem smulVec_length (c : ℝ) (v : List ℝ) : (smulVec c v).length = v.length :=
  List.length_map v _

theorem foldl_vadd_length (vs : List (List ℝ)) (acc : List ℝ)
    (h : ∀ v ∈ vs, v.length = acc.length) :
    (vs.foldl vadd acc).length = acc.length := by
  induction vs generalizing acc with
  | nil => rfl
  | cons v rest ih =>
    have h1 : (vadd acc v).length = acc.length := by
      rw [vadd_length, h v (List.mem_cons_self v rest), min_self]
    rw [List.foldl_cons, ih (vadd acc v) (fun u hu => by rw [h1, h u (List.mem_cons_of_mem v hu)]), h1]

theorem vsum_length (d : ℕ) (vs : List (List ℝ)) (h : ∀ v ∈ vs, v.length = d) :
    (vsum d vs).length = d := by
  have := foldl_vadd_length vs (List.replicate d (0 : ℝ)) (fun v hv => by simp [h v hv])
  simpa [vsum] using this

theorem getD_mem (xs : List (List ℝ)) (j : ℕ) (hj : j < xs.length) : xs.getD j [] ∈ xs := by
  rw [List.getD_eq_getElem?_getD, List.getElem?_eq_getElem hj]
  exact List.getElem_mem hj

theorem contextVec_length (M : Weights) (xs : List (List ℝ)) (d : ℕ)
    (h : ∀ v ∈ xs, v.length = d) (hne : xs ≠ []) (i : ℕ) :
    (contextVec M xs i).length = d := by
  have hhead : xs.headI.length = d := by
    cases xs with
    | nil => exact absurd rfl hne
    | cons v rest => exact h v (List.mem_cons_self v rest)
  rw [contextVec, hhead]
  refine vsum_length d _ ?_
  intro v hv
  rcases List.mem_map.mp hv with ⟨j, hj, rfl⟩
  rw [smulVec_length]
  exact h _ (getD_mem xs j (List.mem_range.mp hj))

theorem embedVec_length (M : Weights)
    (hw : ∀ n, (M.wordEmb n).length = hiddenSize)
    (hp : ∀ n, (M.posEmb n).length = hiddenSize)
    (hn : ∀ v, (M.normalize v).length = v.length)
    (tid pos : ℕ) : (embedVec M tid pos).length = hiddenSize := by
  rw [embedVec, hn, vadd_length, hw, hp, min_self]

/-! ### Claim theorems -/

/-- C1: every element of the pooled output lies within the interval `[-1, 1]`,
for every context-vector sequence given to the pooler and every choice of
pooler weights — the final non-linearity `tanh` is bounded. -/
theorem pooler_output_bounded (M : Weights) (hs : List (List ℝ)) :
    ∀ row ∈ pooler M hs, ∀ x ∈ row, -1 ≤ x ∧ x ≤ 1 := by
  intro row hrow x hx
  have hrow' : row = List.zipWith (fun w b => Real.tanh (b + dot w hs.headI)) M.poolW M.poolB := by
    simpa [pooler] using hrow
  subst hrow'
  rcases mem_zipWith_exists _ _ _ x hx with ⟨u, v, rfl⟩
  exact ⟨neg_one_le_tanh _, tanh_le_one _⟩

/-- Witness for C1 at a concrete input: the single coordinate of the pooled
output of `tinyWeights` on the empty context sequence lies within `[-1, 1]`. -/
theorem pooler_output_bounded_witness :
    [Real.tanh (0 + dot [] (([] : List (List ℝ)).headI))] ∈ pooler tinyWeights [] ∧
      Real.tanh (0 + dot [] (([] : List (List ℝ)).headI)) ∈
        [Real.tanh (0 + dot [] (([] : List (List ℝ)).headI))] ∧
      (-1 ≤ Real.tanh (0 + dot [] (([] : List (List ℝ)).headI)) ∧
        Real.tanh (0 + dot [] (([] : List (List ℝ)).headI)) ≤ 1) :=
  ⟨by simp [pooler, tinyWeights], by simp,
    pooler_output_bounded tinyWeights []
      [Real.tanh (0 + dot [] (([] : List (List ℝ)).headI))] (by simp [pooler, tinyWeights])
      (Real.tanh (0 + dot [] (([] : List (List ℝ)).headI))) (by simp)⟩

/-- C2: the pooled output depends solely on the context vector at sequence
position 0 — two context-vector sequences agreeing at position 0 produce the
same pooler output, whatever the other positions hold. -/
theorem pooler_first_position_only (M : Weights) (hs hs' : List (List ℝ))
    (h : hs.headI = hs'.headI) : pooler M hs = pooler M hs' := by
  simp only [pooler, h]

/-- Witness for C2 at concrete inputs: the sequences `[[1], [2]]` and `[[1]]`
agree at position 0 and get the same pooled output. -/
theorem pooler_first_position_only_witness :
    ([[(1 : ℝ)], [2]] : List (List ℝ)).headI = ([[(1 : ℝ)]] : List (List ℝ)).headI ∧
      pooler zeroWeights [[(1 : ℝ)], [2]] = pooler zeroWeights [[(1 : ℝ)]] :=
  ⟨rfl, pooler_first_position_only zeroWeights [[(1 : ℝ)], [2]] [[(1 : ℝ)]] rfl⟩

/-- C3: for every input string tokenizing within the 512-token limit, the
pooled output of the pipeline has shape (1, 768) — one row of 768 values —
independent of the input's sequence length (for any pooler weights of the
pretrained model's dimensions). -/
theorem pooledOut_shape (M : Weights) (s : String)
    (hW : M.poolW.length = hiddenSize) (hB : M.poolB.length = hiddenSize)
    (_hlen : (tokenize s).length ≤ maxLen) :
    (pooledOut M s).length = 1 ∧ ∀ row ∈ pooledOut M s, row.length = hiddenSize := by
  refine ⟨rfl, ?_⟩
  intro row hrow
  have hrow' : row =
      List.zipWith (fun w b => Real.tanh (b + dot w (encoder M (embeddings M (tokenize s))).headI))
        M.poolW M.poolB := by
    simpa [pooledOut, pooler] using hrow
  subst hrow'
  rw [List.length_zipWith, hW, hB, min_self]

/-- Witness for C3: the concrete zero weights have the pretrained dimensions,
the example string tokenizes within the limit, and the pipeline's pooled
output for it has shape (1, 768). -/
theorem pooledOut_shape_witness :
    zeroWeights.poolW.length = hiddenSize ∧ zeroWeights.poolB.length = hiddenSize ∧
      (tokenize exStr).length ≤ maxLen ∧
      ((pooledOut zeroWeights exStr).length = 1 ∧
        ∀ row ∈ pooledOut zeroWeights exStr, row.length = hiddenSize) :=
  ⟨by simp [zeroWeights], by simp [zeroWeights], by decide,
    pooledOut_shape zeroWeights exStr (by simp [zeroWeights]) (by simp [zeroWeights]) (by decide)⟩

/-- C4: the encoder's output has exactly the same shape as its input — one
context vector per sequence position, each of the input vectors' dimension
768. -/
theorem encoder_shape (M : Weights) (xs : List (List ℝ))
    (h : ∀ v ∈ xs, v.length = hiddenSize) :
    (encoder M xs).length = xs.length ∧ ∀ v ∈ encoder M xs, v.length = hiddenSize := by
  refine ⟨by simp [encoder], ?_⟩
  intro v hv
  rcases List.mem_map.mp hv with ⟨i, hi, rfl⟩
  have hne : xs ≠ [] := by
    intro hx
    rw [hx] at hi
    simp at hi
  exact contextVec_length M xs hiddenSize h hne i

/-- Witness for C4: a concrete one-position sequence of a 768-dimensional
vector is mapped by the encoder to one context vector of dimension 768. -/
theorem encoder_shape_witness :
    (∀ v ∈ [List.replicate hiddenSize (0 : ℝ)], v.length = hiddenSize) ∧
      ((encoder zeroWeights [List.replicate hiddenSize (0 : ℝ)]).length = 1 ∧
        ∀ v ∈ encoder zeroWeights [List.replicate hiddenSize (0 : ℝ)], v.length = hiddenSize) := by
  have h := encoder_shape zeroWeights [List.replicate hiddenSize (0 : ℝ)] (by simp)
  exact ⟨by simp, by simpa using h⟩

/-- C5: for every input string tokenizing within the 512-token limit, the
embedder's batched output has shape (1, sequence length, 768), where the
sequence length is the number of token ids the tokenizer produces (for any
embedding weights of the pretrained model's dimensions). -/
theorem embedOut_shape (M : Weights) (s : String)
    (hw : ∀ n, (M.wordEmb n).length = hiddenSize)
    (hp : ∀ n, (M.posEmb n).length = hiddenSize)
    (hn : ∀ v, (M.normalize v).length = v.length)
    (_hlen : (tokenize s).length ≤ maxLen) :
    (embedOut M s).length = 1 ∧
      ∀ t ∈ embedOut M s, t.length = (tokenize s).length ∧
        ∀ v ∈ t, v.length = hiddenSize := by
  refine ⟨rfl, ?_⟩
  intro t ht
  have ht' : t = embeddings M (tokenize s) := by simpa [embedOut] using ht
  subst ht'
  refine ⟨by simp [embeddings], ?_⟩
  intro v hv
  rcases List.mem_map.mp hv with ⟨i, _, rfl⟩
  exact embedVec_length M hw hp hn _ _

/-- Witness for C5: with the concrete zero weights and the example string, the
embedder output has shape (1, 14, 768). -/
theorem embedOut_shape_witness :
    (∀ n, (zeroWeights.wordEmb n).length = hiddenSize) ∧
      (∀ n, (zeroWeights.posEmb n).length = hiddenSize) ∧
      (∀ v, (zeroWeights.normalize v).length = v.length) ∧
      (tokenize exStr).length ≤ maxLen ∧
      ((embedOut zeroWeights exStr).length = 1 ∧
        ∀ t ∈ embedOut zeroWeights exStr, t.length = (tokenize exStr).length ∧
          ∀ v ∈ t, v.length = hiddenSize) :=
  ⟨fun n => by simp [zeroWeights], fun n => by simp [zeroWeights], fun v => rfl, by decide,
    embedOut_shape zeroWeights exStr (fun n => by simp [zeroWeights])
      (fun n => by simp [zeroWeights]) (fun v => rfl) (by decide)⟩

/-- C6: for every id sequence within the 512-token limit the embedder yields
one vector per id, and the vector at index `i` is the elementwise sum of the
vocabulary-lookup vector of the id at `i` and the position-lookup vector of
`i`, followed by the normalization step. -/
theorem embeddings_sum_lookup (M : Weights) (ids : List ℕ) (_hlen : ids.length ≤ maxLen) :
    (embeddings M ids).length = ids.length ∧
      ∀ i, i < ids.length →
        (embeddings M ids).getD i [] =
          M.normalize (vadd (M.wordEmb (ids.getD i 0)) (M.posEmb i)) := by
  refine ⟨by simp [embeddings], ?_⟩
  intro i hi
  rw [List.getD_eq_getElem?_getD, embeddings, List.getElem?_map, List.getElem?_range hi]
  rfl

/-- Witness for C6: the recorded example id sequence is within the limit and
its embeddings satisfy the per-id sum-plus-normalization description. -/
theorem embeddings_sum_lookup_witness :
    exIds.length ≤ maxLen ∧
      ((embeddings zeroWeights exIds).length = exIds.length ∧
        ∀ i, i < exIds.length →
          (embeddings zeroWeights exIds).getD i [] =
            zeroWeights.normalize
              (vadd (zeroWeights.wordEmb (exIds.getD i 0)) (zeroWeights.posEmb i))) :=
  ⟨by decide, embeddings_sum_lookup zeroWeights exIds (by decide)⟩

/-- C7: for the notebook's example input string, the produced token id
sequence starts with the sequence-start marker id and ends with the
sequence-end marker id. -/
theorem tokenize_example_markers :
    (tokenize exStr).head? = some clsId ∧ (tokenize exStr).getLast? = some sepId := by
  decide

/-- C10: for the example input string the tokenizer produces exactly the
14-element id sequence recorded in the notebook, id 101 decodes to the
sequence-start marker `[CLS]`, and id 102 decodes to the sequence-end
marker `[SEP]`. -/
theorem tokenize_example_ids :
    tokenize exStr = exIds ∧ idToFrag 101 = "[CLS]" ∧ idToFrag 102 = "[SEP]" := by
  decide

/-- C9 counterexample: decoding the id sequence of the example string does
not return the original string (the decode is lower-cased and wrapped in the
marker tokens). -/
theorem decode_tokenize_ne_original : decode (tokenize exStr) ≠ exStr := by
  decide

/-- C9 amended: decoding the id sequence of the example string returns the
detokenized normal form — the lower-cased text with normalized spacing,
wrapped in the sequence-start/sequence-end markers — exactly as recorded in
the notebook's output, not the original string. -/
theorem decode_tokenize_normal_form :
    decode (tokenize exStr) =
      "[CLS] hello, my dog is cute. he likes snowboarding! [SEP]" := by
  decide

/-- C8 counterexample: tokenize → detokenize → tokenize is not idempotent
past the first pass on the example string — the second pass yields a
different id sequence than the first. -/
theorem tokenize_decode_not_idempotent :
    tokenize (decode (tokenize exStr)) ≠
      tokenize (decode (tokenize (decode (tokenize exStr)))) := by
  decide

/-- C8 amended: tokenize → detokenize → tokenize is not idempotent — because
detokenization keeps the marker tokens in the text and tokenization always
adds a fresh marker pair, each further pass wraps the previous id sequence
in one more sequence-start/sequence-end pair, as witnessed on the example
string. -/
theorem tokenize_decode_adds_markers :
    tokenize (decode (tokenize exStr)) = clsId :: tokenize exStr ++ [sepId] ∧
      tokenize (decode (tokenize (decode (tokenize exStr)))) =
        clsId :: tokenize (decode (tokenize exStr)) ++ [sepId] := by
  decide

end BertDissection
